import Mathlib


/-!
Verification of `cpwebapi/oauth_utils.py` against its natural-language
specification.  The Python functions are shallowly embedded as executable
Lean definitions; machine integers are `Nat`, byte strings are `List Nat`
(each element < 256), Python `str` is Lean `String`, Python `dict` is an
association list with Python's insertion/update semantics, and fallible
operations return `Option`/`Except`.
-/

namespace OAuthUtils

/-! ## Python numeric-string primitives

`hex(x)[2:]` and `bin(x)[2:]` always contain at least one digit: for `x = 0`
they are `"0"`.  `pyDigits b x` is the big-endian digit list of those strings.
-/

/-- Big-endian base-`b` digits, by structural recursion on a fuel counter so
that the kernel can evaluate it (`fuel ≥ x` always suffices). -/
def digitsRevAux (b : Nat) : Nat → Nat → List Nat
  | 0, _ => []
  | _, 0 => []
  | fuel + 1, x => digitsRevAux b fuel (x / b) ++ [x % b]

/-- Big-endian base-`b` digit list of `x` (empty for `x = 0`). -/
def digitsRev (b x : Nat) : List Nat := digitsRevAux b x x

/-- Big-endian digit values of Python's `hex(x)[2:]` (`b = 16`) or
`bin(x)[2:]` (`b = 2`): one `0` digit for `x = 0`, minimal digits otherwise. -/
def pyDigits (b x : Nat) : List Nat :=
  if x = 0 then [0] else digitsRev b x

/-- Spec-side: the binary bit length of a natural number (`0` for `0`). -/
def bitLength (x : Nat) : Nat := (digitsRev 2 x).length

/-- Spec-side: the minimal big-endian base-256 representation (empty for `0`). -/
def minBigEndian (x : Nat) : List Nat := digitsRev 256 x

/-- Spec-side: read a big-endian byte list back as a natural number. -/
def fromBigEndian (l : List Nat) : Nat := l.foldl (fun acc d => 256 * acc + d) 0

/-! ## `to_byte_array`

```python
def to_byte_array(x: int) -> list[int]:
    hex_string = hex(x)[2:]
    if len(hex_string) % 2 > 0:
        hex_string = "0" + hex_string
    byte_array = []
    if len(bin(x)[2:]) % 8 == 0:
        byte_array.append(0)
    for i in range(0, len(hex_string), 2):
        byte_array.append(int(hex_string[i : i + 2], 16))
    return byte_array
```
-/

/-- The `"0" + hex_string` padding step: prepend a zero digit when the digit
count is odd. -/
def padEven (l : List Nat) : List Nat :=
  if l.length % 2 > 0 then 0 :: l else l

/-- The loop `for i in range(0, len(hex_string), 2)`: each two consecutive hex
digits form one byte. -/
def pairsToBytes : List Nat → List Nat
  | a :: b :: rest => (16 * a + b) :: pairsToBytes rest
  | _ => []

/-- Embedding of `to_byte_array`. -/
def to_byte_array (x : Nat) : List Nat :=
  (if (pyDigits 2 x).length % 8 = 0 then [0] else []) ++
    pairsToBytes (padEven (pyDigits 16 x))

/-! ## Hex strings, nonce generation and the DH challenge -/

/-- Lowercase hex digit character, as produced by Python's `hex`/`%x`. -/
def hexDigitChar (d : Nat) : Char :=
  if d < 10 then Char.ofNat (48 + d) else Char.ofNat (87 + d)

/-- Python's `hex(x)[2:]` (lowercase, minimal, `"0"` for zero). -/
def natToHex (x : Nat) : String :=
  String.mk ((pyDigits 16 x).map hexDigitChar)

/-- Python's `f"{b:02x}"`: lowercase hex, zero-padded to width two. -/
def format02x (b : Nat) : String :=
  let s := natToHex b
  if s.length < 2 then "0" ++ s else s

/-- Value of one hex character (`0-9`, `a-f`, `A-F`), as accepted by
`int(_, 16)`. -/
def hexCharVal? (c : Char) : Option Nat :=
  if 48 ≤ c.toNat ∧ c.toNat ≤ 57 then some (c.toNat - 48)
  else if 97 ≤ c.toNat ∧ c.toNat ≤ 102 then some (c.toNat - 87)
  else if 65 ≤ c.toNat ∧ c.toNat ≤ 70 then some (c.toNat - 55)
  else none

/-- Python's `int(s, 16)` on a plain hex numeral; `none` models the
`ValueError` on an empty or non-hex string. -/
def hexNat? (s : String) : Option Nat :=
  if s.data = [] then none
  else
    s.data.foldl
      (fun acc c =>
        match acc, hexCharVal? c with
        | some a, some v => some (16 * a + v)
        | _, _ => none)
      (some 0)

/-- `string.ascii_letters + string.digits`. -/
def NONCE_CHARACTERS : String :=
  "abcdefghijklmnopqrstuvwxyzABCDEFGHIJKLMNOPQRSTUVWXYZ0123456789"

/-- Embedding of `generate_oauth_nonce`.  The production branch draws 32
characters via `random.choice`; the random generator is modelled by the
oracle `randomChoice`. -/
def generate_oauth_nonce (randomChoice : Nat → Char) (is_test : Bool) : String :=
  if is_test then NONCE_CHARACTERS.take 32
  else String.mk ((List.range 32).map randomChoice)

/-- Embedding of `generate_dh_random_bytes`.  The production branch hex-encodes
`random.getrandbits(256)`, modelled by the input `randBits`. -/
def generate_dh_random_bytes (randBits : Nat) (is_test : Bool) : String :=
  if is_test then String.join ((List.range 32).map format02x)
  else natToHex randBits

/-- Embedding of `generate_dh_challenge`: `hex(pow(g, int(r, 16), p))[2:]`.
`none` models the `ValueError` from `int(_, 16)` on a malformed string or from
`pow` with modulus zero. -/
def generate_dh_challenge (dh_prime : Nat) (dh_random : String)
    (dh_generator : Nat := 2) : Option String :=
  if dh_prime = 0 then none
  else (hexNat? dh_random).map fun e => natToHex (dh_generator ^ e % dh_prime)

/-- The integer the test-mode DH private value parses to. -/
def testDHInt : Nat :=
  0x000102030405060708090a0b0c0d0e0f101112131415161718191a1b1c1d1e1f

/-! ## Sorting of key/value pairs and the authorization header -/

/-- Python tuple comparison on `(key, value)` pairs: lexicographic. -/
def pairLe (a b : String × String) : Prop :=
  a.1 < b.1 ∨ (a.1 = b.1 ∧ a.2 ≤ b.2)

instance : DecidableRel pairLe := fun a b => by
  unfold pairLe
  infer_instance

/-- Python's `sorted` on a list of pairs: a stable ascending sort. -/
def sortPairs (l : List (String × String)) : List (String × String) :=
  List.insertionSort pairLe l

/-- Embedding of `generate_authorization_header_string`: render each sorted
pair as `key="value"`, join with `", "`, then put `OAuth realm="<realm>", `
in front. -/
def generate_authorization_header_string (request_data : List (String × String))
    (realm : String) : String :=
  let authorization_header_keys :=
    ", ".intercalate
      ((sortPairs request_data).map fun kv => kv.1 ++ "=\"" ++ kv.2 ++ "\"")
  "OAuth realm=\"" ++ realm ++ "\", " ++ authorization_header_keys

/-! ## Percent-encoding (`urllib.parse.quote` / `quote_plus`) -/

/-- Characters never percent-encoded by `urllib.parse.quote` (CPython's
`_ALWAYS_SAFE`): ASCII letters, digits, and `_`, `.`, `-`, `~`. -/
def alwaysSafe (c : Char) : Bool :=
  decide (65 ≤ c.toNat ∧ c.toNat ≤ 90) || decide (97 ≤ c.toNat ∧ c.toNat ≤ 122) ||
    decide (48 ≤ c.toNat ∧ c.toNat ≤ 57) || c == '_' || c == '.' || c == '-' ||
    c == '~'

/-- UTF-8 encoding of one code point (`str.encode("utf-8")`, per character). -/
def utf8Char (n : Nat) : List Nat :=
  if n < 128 then [n]
  else if n < 2048 then [192 + n / 64, 128 + n % 64]
  else if n < 65536 then [224 + n / 4096, 128 + n / 64 % 64, 128 + n % 64]
  else [240 + n / 262144, 128 + n / 4096 % 64, 128 + n / 64 % 64, 128 + n % 64]

/-- UTF-8 bytes of a whole string. -/
def utf8Bytes (s : String) : List Nat :=
  List.flatten (s.data.map fun c => utf8Char c.toNat)

/-- Uppercase hex digit character, as in Python's `"%02X"` format. -/
def hexUpperChar (d : Nat) : Char :=
  if d < 10 then Char.ofNat (48 + d) else Char.ofNat (55 + d)

/-- Python's `'%%%02X' % b`: a percent sign followed by the byte in uppercase
hex, zero-padded to two digits. -/
def percentEscape (b : Nat) : List Char :=
  let ds := (pyDigits 16 b).map hexUpperChar
  '%' :: (if ds.length < 2 then '0' :: ds else ds)

/-- One character under `urllib.parse.quote` with additional safe characters
`safe`: safe characters pass through, everything else is UTF-8 encoded and
percent-escaped. -/
def quoteChar (safe : List Char) (c : Char) : List Char :=
  if alwaysSafe c || safe.contains c then [c]
  else List.flatten ((utf8Char c.toNat).map percentEscape)

/-- `urllib.parse.quote(s)` with its default `safe="/"`. -/
def quote (s : String) : String :=
  String.mk (List.flatten (s.data.map (quoteChar ['/'])))

/-- `urllib.parse.quote_plus(s)`: like `quote` with `safe=""`, except that a
literal space becomes `"+"` (CPython quotes with `safe=" "` and then replaces
every space by `+`, which is the same character-wise map). -/
def quote_plus (s : String) : String :=
  String.mk (List.flatten (s.data.map fun c =>
    if c = ' ' then ['+'] else quoteChar [] c))

/-! ## Python `dict` model and `generate_base_string`

A `dict` is an association list with unique keys in insertion order;
`d[k] = v` (and `update`) replaces the value in place for an existing key and
appends a new key at the end.
-/

/-- Setting one key: `d[k] = v` inside `dict.update`. -/
def dictUpdate1 (d : List (String × String)) (kv : String × String) :
    List (String × String) :=
  if d.any (fun q => q.1 == kv.1) then
    d.map fun q => if q.1 == kv.1 then (q.1, kv.2) else q
  else d ++ [kv]

/-- `d.update(new)`. -/
def dictUpdate (d new : List (String × String)) : List (String × String) :=
  new.foldl dictUpdate1 d

/-- Python `dict` lookup (`d.get(k)`). -/
def dictLookup (d : List (String × String)) (k : String) : Option String :=
  (d.find? (fun q => q.1 == k)).map Prod.snd

/-- The merged parameter dictionary of `generate_base_string`:
`{**request_headers}` updated with `params or {}`, `form_data or {}`,
`body or {}`, `extra_headers or {}` in that order (`[]` models `None`). -/
def base_string_params
    (request_headers params form_data body extra_headers :
      List (String × String)) : List (String × String) :=
  dictUpdate (dictUpdate (dictUpdate (dictUpdate request_headers params)
    form_data) body) extra_headers

/-- The `&`-joined `key=value` rendering of the sorted merged parameters. -/
def oauth_params_string
    (request_headers params form_data body extra_headers :
      List (String × String)) : String :=
  "&".intercalate
    ((sortPairs (base_string_params request_headers params form_data body
        extra_headers)).map fun kv => kv.1 ++ "=" ++ kv.2)

/-- Embedding of `generate_base_string`. -/
def generate_base_string (request_method request_url : String)
    (request_headers params form_data body extra_headers :
      List (String × String))
    (prepend : Option String) : String :=
  let encoded_request_url := quote_plus request_url
  let encoded_oauth_params_string :=
    quote (oauth_params_string request_headers params form_data body
      extra_headers)
  let base_string :=
    "&".intercalate [request_method, encoded_request_url,
      encoded_oauth_params_string]
  match prepend with
  | some p => p ++ base_string
  | none => base_string

instance : IsTotal (String × String) pairLe := by
  constructor
  intro a b
  rcases lt_trichotomy a.1 b.1 with h | h | h
  · exact Or.inl (Or.inl h)
  · rcases le_total a.2 b.2 with h2 | h2
    · exact Or.inl (Or.inr ⟨h, h2⟩)
    · exact Or.inr (Or.inr ⟨h.symm, h2⟩)
  · exact Or.inr (Or.inl h)

instance : IsTrans (String × String) pairLe := by
  constructor
  intro a b c hab hbc
  rcases hab with h1 | ⟨h1, h1v⟩
  · rcases hbc with h2 | ⟨h2, h2v⟩
    · exact Or.inl (h1.trans h2)
    · exact Or.inl (by rw [← h2]; exact h1)
  · rcases hbc with h2 | ⟨h2, h2v⟩
    · exact Or.inl (by rw [h1]; exact h2)
    · exact Or.inr ⟨h1.trans h2, h1v.trans h2v⟩

instance : IsAntisymm (String × String) pairLe := by
  constructor
  intro a b hab hba
  rcases hab with h1 | ⟨h1, h1v⟩
  · rcases hba with h2 | ⟨h2, h2v⟩
    · exact absurd (h1.trans h2) (lt_irrefl _)
    · exact absurd (h2 ▸ h1) (lt_irrefl _)
  · rcases hba with h2 | ⟨h2, h2v⟩
    · exact absurd (h1 ▸ h2) (lt_irrefl _)
    · exact Prod.ext h1 (le_antisymm h1v h2v)

/-! ## Encoding modes inside the base string (claim C5) -/

/-- The reserved characters of RFC 3986 (gen-delims and sub-delims). -/
def reservedChars : List Char :=
  [':', '/', '?', '#', '[', ']', '@', '!', '$', '&', Char.ofNat 39, '(', ')',
    '*', '+', ',', ';', '=']

/-- A single character is rendered by `enc` as a percent escape. -/
def percentEscaped (enc : String → String) (c : Char) : Prop :=
  (enc (String.singleton c)).data.head? = some '%' ∧
    enc (String.singleton c) ≠ String.singleton c

instance (enc : String → String) (c : Char) :
    Decidable (percentEscaped enc c) := by
  unfold percentEscaped
  infer_instance

/-! ## SHA-1, HMAC-SHA1 and base64 (models of the library calls) -/

/-- `2^32`, the word modulus of SHA-1. -/
def M32 : Nat := 4294967296

/-- Bitwise combination of the low `fuel` bits of two naturals, by structural
recursion so that the kernel can evaluate it. -/
def bitAux (f : Nat → Nat → Nat) : Nat → Nat → Nat → Nat
  | 0, _, _ => 0
  | fuel + 1, a, b => f (a % 2) (b % 2) + 2 * bitAux f fuel (a / 2) (b / 2)

def xor32 (a b : Nat) : Nat := bitAux (fun x y => (x + y) % 2) 32 a b

def and32 (a b : Nat) : Nat := bitAux (fun x y => x * y) 32 a b

def or32 (a b : Nat) : Nat := bitAux (fun x y => x + y - x * y) 32 a b

/-- Left rotation of a 32-bit word. -/
def rotl32 (n x : Nat) : Nat := (x * 2 ^ n + x / 2 ^ (32 - n)) % M32

/-- Big-endian bytes of `x` zero-padded to width `k` (the word and length
serializations inside SHA-1, and `long_to_bytes(x, k)` for `x < 256^k`). -/
def toBytesBE (k x : Nat) : List Nat :=
  (List.range k).map fun i => x / 256 ^ (k - 1 - i) % 256

/-- The sixteen 32-bit big-endian words of one 64-byte block. -/
def wordsOfBlock (block : List Nat) : List Nat :=
  (List.range 16).map fun i =>
    block.getD (4 * i) 0 * 16777216 + block.getD (4 * i + 1) 0 * 65536 +
      block.getD (4 * i + 2) 0 * 256 + block.getD (4 * i + 3) 0

/-- The SHA-1 message schedule: extend 16 words to 80. -/
def sha1Schedule (w16 : List Nat) : List Nat :=
  (List.range 80).foldl
    (fun ws i =>
      if i < 16 then ws ++ [w16.getD i 0]
      else ws ++ [rotl32 1 (xor32 (xor32 (ws.getD (i - 3) 0) (ws.getD (i - 8) 0))
        (xor32 (ws.getD (i - 14) 0) (ws.getD (i - 16) 0)))])
    []

/-- The SHA-1 round function for round `t`. -/
def sha1F (t b c d : Nat) : Nat :=
  if t < 20 then or32 (and32 b c) (and32 (M32 - 1 - b) d)
  else if t < 40 then xor32 (xor32 b c) d
  else if t < 60 then or32 (or32 (and32 b c) (and32 b d)) (and32 c d)
  else xor32 (xor32 b c) d

/-- The SHA-1 round constant for round `t`. -/
def sha1K (t : Nat) : Nat :=
  if t < 20 then 0x5A827999
  else if t < 40 then 0x6ED9EBA1
  else if t < 60 then 0x8F1BBCDC
  else 0xCA62C1D6

/-- One SHA-1 round: update the five-word state with round index and word. -/
def sha1Round (st : Nat × Nat × Nat × Nat × Nat) (tw : Nat × Nat) :
    Nat × Nat × Nat × Nat × Nat :=
  let (a, b, c, d, e) := st
  let (t, w) := tw
  ((rotl32 5 a + sha1F t b c d + e + sha1K t + w) % M32, a, rotl32 30 b, c, d)

/-- Compress one 64-byte block into the chaining state. -/
def sha1Block (h : Nat × Nat × Nat × Nat × Nat) (block : List Nat) :
    Nat × Nat × Nat × Nat × Nat :=
  let ws := sha1Schedule (wordsOfBlock block)
  let (a, b, c, d, e) := ((List.range 80).zip ws).foldl sha1Round h
  let (h0, h1, h2, h3, h4) := h
  ((h0 + a) % M32, (h1 + b) % M32, (h2 + c) % M32, (h3 + d) % M32,
    (h4 + e) % M32)

/-- Merkle–Damgard padding: `0x80`, zeros to 56 mod 64, 8-byte bit length. -/
def sha1Pad (msg : List Nat) : List Nat :=
  msg ++ [128] ++ List.replicate ((120 - (msg.length + 1) % 64) % 64) 0 ++
    toBytesBE 8 (msg.length * 8)

/-- Split into 64-byte chunks (structural fuel recursion). -/
def chunks64 : Nat → List Nat → List (List Nat)
  | 0, _ => []
  | _, [] => []
  | fuel + 1, l => l.take 64 :: chunks64 fuel (l.drop 64)

/-- SHA-1 of a byte string (`Crypto.Hash.SHA1`). -/
def sha1 (msg : List Nat) : List Nat :=
  let padded := sha1Pad msg
  let blocks := chunks64 padded.length padded
  let (h0, h1, h2, h3, h4) := blocks.foldl sha1Block
    (0x67452301, 0xEFCDAB89, 0x98BADCFE, 0x10325476, 0xC3D2E1F0)
  toBytesBE 4 h0 ++ toBytesBE 4 h1 ++ toBytesBE 4 h2 ++ toBytesBE 4 h3 ++
    toBytesBE 4 h4

/-- HMAC-SHA1 (`Crypto.Hash.HMAC` with `digestmod=SHA1`, block size 64). -/
def hmacSha1 (key msg : List Nat) : List Nat :=
  let key := if 64 < key.length then sha1 key else key
  let key := key ++ List.replicate (64 - key.length) 0
  let ipad := key.map (xor32 54)
  let opad := key.map (xor32 92)
  sha1 (opad ++ sha1 (ipad ++ msg))

/-- Lowercase hex of a byte string: `bytes.hex()` and `hmac.hexdigest()`. -/
def bytesHex (bs : List Nat) : String :=
  String.join (bs.map format02x)

/-- Value of one base64 alphabet character. -/
def b64CharVal? (c : Char) : Option Nat :=
  if 65 ≤ c.toNat ∧ c.toNat ≤ 90 then some (c.toNat - 65)
  else if 97 ≤ c.toNat ∧ c.toNat ≤ 122 then some (c.toNat - 71)
  else if 48 ≤ c.toNat ∧ c.toNat ≤ 57 then some (c.toNat + 4)
  else if c = '+' then some 62
  else if c = '/' then some 63
  else none

/-- Standard base64 decoding of four-character groups, with `=` padding only
at the end; `none` models the `binascii.Error` on malformed input. -/
def b64DecodeGroups : List Char → Option (List Nat)
  | [] => some []
  | c1 :: c2 :: c3 :: c4 :: rest =>
    match b64CharVal? c1, b64CharVal? c2 with
    | some v1, some v2 =>
      if c3 = '=' ∧ c4 = '=' ∧ rest = [] then
        some [v1 * 4 + v2 / 16]
      else
        match b64CharVal? c3 with
        | some v3 =>
          if c4 = '=' ∧ rest = [] then
            some [v1 * 4 + v2 / 16, v2 % 16 * 16 + v3 / 4]
          else
            match b64CharVal? c4 with
            | some v4 =>
              (b64DecodeGroups rest).map
                (fun bs => (v1 * 4 + v2 / 16) :: (v2 % 16 * 16 + v3 / 4) ::
                  (v3 % 4 * 64 + v4) :: bs)
            | none => none
        | none => none
    | _, _ => none
  | _ => none

/-- `base64.b64decode` on a well-formed standard-alphabet string. -/
def b64decode? (s : String) : Option (List Nat) :=
  b64DecodeGroups s.data

/-- Embedding of `validate_live_session_token`: recompute
`HMAC-SHA1(key = b64decode(LST), message = utf-8(consumer_key)).hexdigest()`
and compare with the supplied signature; `none` models the `binascii.Error`
when the token is not valid base64. -/
def validate_live_session_token
    (live_session_token live_session_token_signature consumer_key : String) :
    Option Bool :=
  (b64decode? live_session_token).map fun key =>
    bytesHex (hmacSha1 key (utf8Bytes consumer_key)) ==
      live_session_token_signature

/-! ## RSA PKCS#1 v1.5 decryption and the LST prepend (claim C2) -/

/-- Python exception classes observable from
`calculate_live_session_token_prepend`; `decryptionError` is the typed error
condition the specification postulates. -/
inductive PyError where
  | valueError
  | attributeError
  | decryptionError
deriving DecidableEq

instance {ε α : Type} [DecidableEq ε] [DecidableEq α] :
    DecidableEq (Except ε α)
  | .error e₁, .error e₂ =>
    if h : e₁ = e₂ then isTrue (by rw [h])
    else isFalse (by intro hc; cases hc; exact h rfl)
  | .error _, .ok _ => isFalse (by intro hc; cases hc)
  | .ok _, .error _ => isFalse (by intro hc; cases hc)
  | .ok a₁, .ok a₂ =>
    if h : a₁ = a₂ then isTrue (by rw [h])
    else isFalse (by intro hc; cases hc; exact h rfl)

/-- An RSA private key: modulus `n` and private exponent `d`. -/
structure RsaKey where
  n : Nat
  d : Nat
deriving DecidableEq

/-- `key.size_in_bytes()`: the modulus size in bytes, rounded up. -/
def RsaKey.sizeInBytes (key : RsaKey) : Nat := (bitLength key.n + 7) / 8

/-- `PKCS1_v1_5_Cipher.new(key).decrypt(ct, sentinel)`: `ValueError` when the
ciphertext length differs from the modulus length (or the modulus is shorter
than 11 bytes); otherwise RSA-decrypt, serialize to `k` bytes, and look for
the `00 02 | ≥ 8 nonzero pad bytes | 00 | message` structure.  `.ok none` is
the sentinel value returned when padding validation fails. -/
def pkcs1v15Decrypt (key : RsaKey) (ct : List Nat) :
    Except PyError (Option (List Nat)) :=
  let k := key.sizeInBytes
  if ct.length ≠ k ∨ k < 11 then .error .valueError
  else
    let em := toBytesBE k (fromBigEndian ct ^ key.d % key.n)
    match em with
    | 0 :: 2 :: rest =>
      match rest.findIdx? (fun b => b == 0) with
      | some i =>
        if 10 ≤ i + 2 then .ok (some (rest.drop (i + 1))) else .ok none
      | none => .ok none
    | _ => .ok none

/-- Embedding of `calculate_live_session_token_prepend`: base64-decode the
secret, RSA-decrypt it, hex-encode the result.  The sentinel passed to
`decrypt` is `None`, so when padding validation fails the subsequent
`decrypted_access_token_secret.hex()` raises `AttributeError` (`NoneType` has
no attribute `hex`). -/
def calculate_live_session_token_prepend (access_token_secret : String)
    (private_encryption_key : RsaKey) : Except PyError String :=
  match b64decode? access_token_secret with
  | none => .error .valueError
  | some access_token_secret_bytes =>
    match pkcs1v15Decrypt private_encryption_key access_token_secret_bytes with
    | .error e => .error e
    | .ok none => .error .attributeError
    | .ok (some decrypted) => .ok (bytesHex decrypted)

theorem digitsRevAux_eq (b : Nat) (hb : 2 ≤ b) :
    ∀ fuel x, x ≤ fuel → digitsRevAux b fuel x = (Nat.digits b x).reverse := by
  intro fuel
  induction fuel with
  | zero =>
    intro x hx
    interval_cases x
    simp [digitsRevAux]
  | succ f ih =>
    intro x hx
    rcases Nat.eq_zero_or_pos x with h0 | h0
    · subst h0; simp [digitsRevAux]
    · rw [digitsRevAux, ih (x / b) (by
        have := Nat.div_lt_self h0 (by omega : 1 < b)
        omega),
        Nat.digits_of_two_le_of_pos hb h0]
      · simp
      · omega

/-- `digitsRev` agrees with Mathlib's `Nat.digits`, reversed. -/
theorem digitsRev_eq (b x : Nat) (hb : 2 ≤ b) :
    digitsRev b x = (Nat.digits b x).reverse :=
  digitsRevAux_eq b hb x x le_rfl

theorem pyDigits_eq (b x : Nat) (hb : 2 ≤ b) :
    pyDigits b x = if x = 0 then [0] else (Nat.digits b x).reverse := by
  unfold pyDigits
  rw [digitsRev_eq b x hb]

theorem bitLength_eq (x : Nat) : bitLength x = (Nat.digits 2 x).length := by
  unfold bitLength
  rw [digitsRev_eq 2 x (by norm_num)]
  simp

theorem minBigEndian_eq (x : Nat) : minBigEndian x = (Nat.digits 256 x).reverse :=
  digitsRev_eq 256 x (by norm_num)

theorem padEven_length_even (l : List Nat) : (padEven l).length % 2 = 0 := by
  unfold padEven
  split
  · rw [List.length_cons]
    omega
  · omega

theorem padEven_append_two (l : List Nat) (a b : Nat) :
    padEven (l ++ [a, b]) = padEven l ++ [a, b] := by
  unfold padEven
  simp only [List.length_append, List.length_cons, List.length_nil]
  by_cases h : l.length % 2 > 0
  · rw [if_pos (by omega), if_pos h]
    rfl
  · rw [if_neg (by omega), if_neg h]

theorem pairsToBytes_append_pair (l : List Nat) (hl : l.length % 2 = 0)
    (a b : Nat) : pairsToBytes (l ++ [a, b]) = pairsToBytes l ++ [16 * a + b] := by
  induction l using pairsToBytes.induct with
  | case1 x y rest ih =>
    simp only [List.length_cons] at hl
    simp only [List.cons_append, List.append_eq, pairsToBytes]
    rw [ih (by omega)]
  | case2 l h =>
    rcases l with _ | ⟨x, _ | ⟨y, rest⟩⟩
    · simp [pairsToBytes]
    · simp at hl
    · exact absurd rfl (h x y rest)

/-- The digit-pairing loop of `to_byte_array` computes exactly the base-256
digits (big-endian), except that `x = 0` yields the single byte `0`. -/
theorem pairsToBytes_padEven (x : Nat) :
    pairsToBytes (padEven (pyDigits 16 x)) =
      if x = 0 then [0] else (Nat.digits 256 x).reverse := by
  induction x using Nat.strong_induction_on with
  | _ x ih =>
    rcases Nat.eq_zero_or_pos x with hx | hx
    · subst hx; decide
    rcases lt_or_le x 256 with h256 | h256
    · have hd256 : Nat.digits 256 x = [x] := by
        rw [Nat.digits_def' (by norm_num : (1:Nat) < 256) hx,
          Nat.div_eq_of_lt h256, Nat.mod_eq_of_lt h256]
        simp
      rcases lt_or_le x 16 with h16 | h16
      · have hd16 : Nat.digits 16 x = [x] := by
          rw [Nat.digits_def' (by norm_num : (1:Nat) < 16) hx,
            Nat.div_eq_of_lt h16, Nat.mod_eq_of_lt h16]
          simp
        rw [pyDigits_eq 16 x (by norm_num), if_neg hx.ne', if_neg hx.ne', hd16]
        simp [padEven, pairsToBytes, hd256]
      · have hx16 : 0 < x / 16 := Nat.div_pos h16 (by norm_num)
        have hd16 : Nat.digits 16 x = [x % 16, x / 16] := by
          rw [Nat.digits_def' (by norm_num : (1:Nat) < 16) hx,
            Nat.digits_def' (by norm_num : (1:Nat) < 16) hx16,
            Nat.div_eq_of_lt (by omega : x / 16 < 16),
            Nat.mod_eq_of_lt (by omega : x / 16 < 16)]
          simp
        have hxeq : 16 * (x / 16) + x % 16 = x := by omega
        rw [pyDigits_eq 16 x (by norm_num), if_neg hx.ne', if_neg hx.ne', hd16]
        simp [padEven, pairsToBytes, hd256, hxeq]
    · have hq : 0 < x / 256 := Nat.div_pos h256 (by norm_num)
      have h16' : 0 < x / 16 := Nat.div_pos (by omega) (by norm_num)
      have hdiv : x / 16 / 16 = x / 256 := by
        rw [Nat.div_div_eq_div_mul]
      have hd16 : Nat.digits 16 x =
          x % 16 :: x / 16 % 16 :: Nat.digits 16 (x / 256) := by
        rw [Nat.digits_def' (by norm_num : (1:Nat) < 16) hx,
          Nat.digits_def' (by norm_num : (1:Nat) < 16) h16', hdiv]
      have hd256 : Nat.digits 256 x = x % 256 :: Nat.digits 256 (x / 256) :=
        Nat.digits_def' (by norm_num : (1:Nat) < 256) hx
      have ihq := ih (x / 256) (by omega)
      rw [if_neg hq.ne'] at ihq
      rw [if_neg hx.ne']
      have hrev : pyDigits 16 x =
          pyDigits 16 (x / 256) ++ [x / 16 % 16, x % 16] := by
        rw [pyDigits_eq 16 x (by norm_num), pyDigits_eq 16 (x / 256) (by norm_num),
          if_neg hx.ne', if_neg hq.ne', hd16]
        simp
      rw [hrev, padEven_append_two,
        pairsToBytes_append_pair _ (padEven_length_even _), ihq, hd256]
      have : 16 * (x / 16 % 16) + x % 16 = x % 256 := by omega
      simp [this]

/-- Digit-count bounds for a base that is a power of two, phrased against the
binary bit length. -/
theorem digits_base_pow_length_bounds (t x : Nat) (ht : 0 < t) (hx : x ≠ 0) :
    t * ((Nat.digits (2 ^ t) x).length - 1) < bitLength x ∧
      bitLength x ≤ t * (Nat.digits (2 ^ t) x).length ∧
      1 ≤ (Nat.digits (2 ^ t) x).length := by
  have hb : 1 < 2 ^ t := Nat.one_lt_pow ht.ne' (by norm_num)
  set L := (Nat.digits (2 ^ t) x).length with hL
  have hL1 : 1 ≤ L :=
    List.length_pos.mpr (Nat.digits_ne_nil_iff_ne_zero.mpr hx)
  have hxlt : x < 2 ^ (t * L) := by
    rw [pow_mul]
    exact Nat.lt_base_pow_length_digits hb
  have hxge : 2 ^ (t * (L - 1)) ≤ x := by
    have h1 : (2 ^ t) ^ L ≤ 2 ^ t * x := Nat.base_pow_length_digits_le _ x hb hx
    have h2 : (2 ^ t) ^ L = 2 ^ t * (2 ^ t) ^ (L - 1) := by
      conv_lhs => rw [show L = 1 + (L - 1) by omega]
      rw [pow_add, pow_one]
    rw [h2] at h1
    have h3 := Nat.le_of_mul_le_mul_left h1 (by positivity)
    rwa [← pow_mul] at h3
  rw [bitLength_eq]
  set B := (Nat.digits 2 x).length with hB
  have hB1 : 1 ≤ B :=
    List.length_pos.mpr (Nat.digits_ne_nil_iff_ne_zero.mpr hx)
  have hxltB : x < 2 ^ B := by
    have h := Nat.lt_base_pow_length_digits (b := 2) (m := x) (by norm_num)
    rwa [← hB] at h
  have hxgeB : 2 ^ (B - 1) ≤ x := by
    have h1 : 2 ^ B ≤ 2 * x := Nat.base_pow_length_digits_le 2 x (by norm_num) hx
    have h2 : 2 ^ B = 2 * 2 ^ (B - 1) := by
      conv_lhs => rw [show B = 1 + (B - 1) by omega]
      rw [pow_add, pow_one]
    rw [h2] at h1
    exact Nat.le_of_mul_le_mul_left h1 (by norm_num)
  refine ⟨?_, ?_, hL1⟩
  · exact (Nat.pow_lt_pow_iff_right (by norm_num : (1:Nat) < 2)).mp
      (lt_of_le_of_lt hxge hxltB)
  · have h := (Nat.pow_lt_pow_iff_right (by norm_num : (1:Nat) < 2)).mp
      (lt_of_le_of_lt hxgeB hxlt)
    omega

theorem digits_256_length (x : Nat) (hx : x ≠ 0) :
    (Nat.digits 256 x).length = (bitLength x + 7) / 8 := by
  have h := digits_base_pow_length_bounds 8 x (by norm_num) hx
  norm_num at h
  omega

/-- C1: For every non-negative integer `x` whose binary bit length is an
exact multiple of 8, the first element of `to_byte_array x` is `0x00` and the
remaining elements are the minimal big-endian byte sequence of `x`; for every
other `x`, `to_byte_array x` has no leading zero byte and its length equals
`ceil(bitlength(x)/8)`. -/
theorem to_byte_array_sign_padding (x : Nat) :
    (bitLength x % 8 = 0 →
      (to_byte_array x).head? = some 0 ∧ (to_byte_array x).tail = minBigEndian x) ∧
    (bitLength x % 8 ≠ 0 →
      (to_byte_array x).head? ≠ some 0 ∧
        (to_byte_array x).length = (bitLength x + 7) / 8) := by
  rcases Nat.eq_zero_or_pos x with hx | hx
  · subst hx
    exact ⟨fun _ => by decide, fun h => absurd (by decide) h⟩
  · have hlead : (pyDigits 2 x).length = bitLength x := by
      rw [pyDigits_eq 2 x (by norm_num), if_neg hx.ne', bitLength_eq]
      simp
    have hbody := pairsToBytes_padEven x
    rw [if_neg hx.ne'] at hbody
    unfold to_byte_array
    rw [hlead, hbody]
    constructor
    · intro h8
      rw [if_pos h8]
      exact ⟨by simp, by simp [minBigEndian_eq]⟩
    · intro h8
      rw [if_neg h8]
      refine ⟨?_, ?_⟩
      · simp only [List.nil_append, List.head?_reverse]
        rw [List.getLast?_eq_getLast_of_ne_nil
          (Nat.digits_ne_nil_iff_ne_zero.mpr hx.ne')]
        intro hcon
        exact Nat.getLast_digit_ne_zero 256 hx.ne' (Option.some.inj hcon)
      · simp [digits_256_length x hx.ne']

/-- Witness for C1 at `x = 128` (bit length 8) and `x = 1` (bit length 1). -/
theorem to_byte_array_sign_padding_witness :
    ((to_byte_array 128).head? = some 0 ∧
      (to_byte_array 128).tail = minBigEndian 128) ∧
    ((to_byte_array 1).head? ≠ some 0 ∧
      (to_byte_array 1).length = (bitLength 1 + 7) / 8) :=
  ⟨(to_byte_array_sign_padding 128).1 (by decide),
    (to_byte_array_sign_padding 1).2 (by decide)⟩

theorem fromBigEndian_cons_zero (l : List Nat) :
    fromBigEndian (0 :: l) = fromBigEndian l := by
  simp [fromBigEndian]

theorem fromBigEndian_reverse (l : List Nat) :
    fromBigEndian l.reverse = Nat.ofDigits 256 l := by
  induction l with
  | nil => simp [fromBigEndian, Nat.ofDigits]
  | cons d rest ih =>
    rw [List.reverse_cons]
    unfold fromBigEndian at ih ⊢
    rw [List.foldl_append, Nat.ofDigits_cons, ih]
    simp
    ring

/-- C9: Every element of `to_byte_array x` is a byte (`< 256`), and reading
the list back as a big-endian unsigned integer recovers `x`. -/
theorem to_byte_array_roundtrip (x : Nat) :
    (∀ b ∈ to_byte_array x, b < 256) ∧ fromBigEndian (to_byte_array x) = x := by
  rcases Nat.eq_zero_or_pos x with hx | hx
  · subst hx
    exact ⟨by decide, by decide⟩
  · have hbody := pairsToBytes_padEven x
    rw [if_neg hx.ne'] at hbody
    unfold to_byte_array
    rw [hbody]
    constructor
    · intro b hb
      rcases List.mem_append.mp hb with h | h
      · split at h <;> simp at h
        omega
      · exact Nat.digits_lt_base (by norm_num) (List.mem_reverse.mp h)
    · have hsplit :
          fromBigEndian ((if (pyDigits 2 x).length % 8 = 0 then [0] else []) ++
              (Nat.digits 256 x).reverse) =
            fromBigEndian ((Nat.digits 256 x).reverse) := by
        split
        · exact fromBigEndian_cons_zero _
        · simp
      rw [hsplit, fromBigEndian_reverse, Nat.ofDigits_digits]

/-- The deterministic test-mode DH private value: hex of bytes `0x00..0x1f`. -/
theorem generate_dh_random_bytes_test_eval (randBits : Nat) :
    generate_dh_random_bytes randBits true =
      "000102030405060708090a0b0c0d0e0f101112131415161718191a1b1c1d1e1f" := by
  have h : generate_dh_random_bytes randBits true =
      String.join ((List.range 32).map format02x) := rfl
  rw [h]
  decide

theorem testDH_parse :
    hexNat? "000102030405060708090a0b0c0d0e0f101112131415161718191a1b1c1d1e1f" =
      some testDHInt := by
  decide

/-- `pow(2, testDHInt, 23) = 3`: the order of `2` modulo `23` is `11`, and
`testDHInt % 11 = 8`, so the result is `2^8 % 23 = 3`. -/
theorem two_pow_testDHInt_mod_23 : 2 ^ testDHInt % 23 = 3 := by
  obtain ⟨q, hq⟩ : ∃ q, testDHInt = 11 * q + 8 := ⟨testDHInt / 11, by decide⟩
  rw [hq, pow_add, pow_mul, Nat.mul_mod, Nat.pow_mod]
  norm_num

/-- Evaluation of the DH challenge on the test-mode private value. -/
theorem dh_challenge_test_eval (randBits : Nat) :
    generate_dh_challenge 23 (generate_dh_random_bytes randBits true) 2 =
      some "3" := by
  rw [generate_dh_random_bytes_test_eval randBits]
  unfold generate_dh_challenge
  rw [if_neg (by norm_num), testDH_parse, Option.map_some', two_pow_testDHInt_mod_23]
  decide

/-- C3 (amended): with `dh_prime = 23` and `dh_generator = 2`, the test-mode DH
private value parses to the 256-bit integer `0x000102...1f` (not `31`), and
`generate_dh_challenge` returns the hex encoding of `pow(2, that value, 23)`,
namely `"3"`. -/
theorem dh_test_vector (randBits : Nat) :
    hexNat? (generate_dh_random_bytes randBits true) = some testDHInt ∧
    generate_dh_challenge 23 (generate_dh_random_bytes randBits true) 2 =
      some (natToHex (2 ^ testDHInt % 23)) ∧
    natToHex (2 ^ testDHInt % 23) = "3" := by
  refine ⟨?_, ?_, ?_⟩
  · rw [generate_dh_random_bytes_test_eval randBits]
    exact testDH_parse
  · rw [two_pow_testDHInt_mod_23, dh_challenge_test_eval randBits]
    decide
  · rw [two_pow_testDHInt_mod_23]
    decide

/-- C3 counterexample: the parsed test-mode private exponent is not `31`, and
the resulting challenge differs from `hex(pow(2, 31, 23))`. -/
theorem dh_test_vector_counterexample :
    hexNat? (generate_dh_random_bytes 0 true) ≠ some 31 ∧
    generate_dh_challenge 23 (generate_dh_random_bytes 0 true) 2 ≠
      some (natToHex (2 ^ 31 % 23)) := by
  constructor
  · rw [generate_dh_random_bytes_test_eval 0, testDH_parse]
    decide
  · rw [dh_challenge_test_eval 0]
    decide

set_option maxRecDepth 4096 in
/-- C8: with `is_test = true`, `generate_oauth_nonce` always returns the first
32 characters of the alphanumeric alphabet in order, `generate_dh_random_bytes`
always returns the hex encoding of the 32 sequential byte values `0x00..0x1f`,
and both outputs are independent of the randomness source. -/
theorem test_mode_determinism (rc rc' : Nat → Char) (rb rb' : Nat) :
    generate_oauth_nonce rc true = NONCE_CHARACTERS.take 32 ∧
    generate_oauth_nonce rc true = "abcdefghijklmnopqrstuvwxyzABCDEF" ∧
    generate_dh_random_bytes rb true =
      "000102030405060708090a0b0c0d0e0f101112131415161718191a1b1c1d1e1f" ∧
    generate_oauth_nonce rc true = generate_oauth_nonce rc' true ∧
    generate_dh_random_bytes rb true = generate_dh_random_bytes rb' true := by
  refine ⟨rfl, ?_, generate_dh_random_bytes_test_eval rb, rfl, ?_⟩
  · have h : generate_oauth_nonce rc true = NONCE_CHARACTERS.take 32 := rfl
    rw [h]
    decide
  · rw [generate_dh_random_bytes_test_eval rb,
      generate_dh_random_bytes_test_eval rb']

/-- C10: with an empty `request_data` map, the authorization header is exactly
`OAuth realm="<realm>", ` — the prefix followed by a dangling `", "` separator
and no `key="value"` pairs. -/
theorem auth_header_empty_request (realm : String) :
    generate_authorization_header_string [] realm =
      "OAuth realm=\"" ++ realm ++ "\", " := by
  unfold generate_authorization_header_string sortPairs
  simp [List.insertionSort, String.intercalate]

/-! ## Lookup behaviour of the dictionary merge (claim C7) -/

theorem dictLookup_cons (q : String × String) (d : List (String × String))
    (k : String) :
    dictLookup (q :: d) k = if q.1 = k then some q.2 else dictLookup d k := by
  unfold dictLookup
  by_cases h : q.1 = k
  · rw [List.find?_cons_of_pos _ (by simpa using h), if_pos h]
    rfl
  · rw [List.find?_cons_of_neg _ (by simpa using h), if_neg h]

theorem dictLookup_eq_none_of_not_mem (d : List (String × String)) (k : String)
    (h : k ∉ d.map Prod.fst) : dictLookup d k = none := by
  induction d with
  | nil => rfl
  | cons q rest ih =>
    simp only [List.map_cons, List.mem_cons] at h
    push_neg at h
    rw [dictLookup_cons, if_neg (fun hq => h.1 hq.symm)]
    exact ih h.2

theorem dictLookup_overwrite (d : List (String × String)) (k0 v k : String) :
    dictLookup (d.map fun q => if q.1 == k0 then (q.1, v) else q) k =
      if k0 = k then (dictLookup d k).map (fun _ => v) else dictLookup d k := by
  induction d with
  | nil =>
    simp only [List.map_nil]
    split <;> rfl
  | cons q rest ih =>
    simp only [List.map_cons]
    have hfst : (if q.1 == k0 then (q.1, v) else q).1 = q.1 := by
      split <;> rfl
    have hsnd_eq : q.1 = k0 → (if q.1 == k0 then (q.1, v) else q).2 = v := by
      intro h
      rw [if_pos (by simpa using h)]
    have hsnd_ne : q.1 ≠ k0 → (if q.1 == k0 then (q.1, v) else q).2 = q.2 := by
      intro h
      rw [if_neg (by simpa using h)]
    rw [dictLookup_cons, hfst, dictLookup_cons]
    by_cases hq : q.1 = k
    · rw [if_pos hq, if_pos hq]
      by_cases hk : k0 = k
      · rw [if_pos hk, hsnd_eq (by rw [hq, hk])]
        rfl
      · rw [if_neg hk, hsnd_ne (fun hc => hk (by rw [← hc, hq]))]
    · rw [if_neg hq, if_neg hq, ih]

theorem dictLookup_append_single (d : List (String × String))
    (kv : String × String) (k : String) :
    dictLookup (d ++ [kv]) k =
      (dictLookup d k).or (if kv.1 = k then some kv.2 else none) := by
  induction d with
  | nil =>
    simp only [List.nil_append]
    rw [dictLookup_cons]
    split <;> rfl
  | cons q rest ih =>
    simp only [List.cons_append]
    rw [dictLookup_cons, dictLookup_cons]
    by_cases hq : q.1 = k
    · rw [if_pos hq, if_pos hq]
      rfl
    · rw [if_neg hq, if_neg hq, ih]

theorem dictLookup_isSome_of_any (d : List (String × String)) (k : String)
    (h : d.any (fun q => q.1 == k) = true) :
    ∃ v, dictLookup d k = some v := by
  induction d with
  | nil => simp at h
  | cons q rest ih =>
    rw [dictLookup_cons]
    by_cases hq : q.1 = k
    · exact ⟨q.2, by rw [if_pos hq]⟩
    · rw [if_neg hq]
      apply ih
      simp only [List.any_cons, Bool.or_eq_true, beq_iff_eq] at h
      rcases h with h | h
      · exact absurd h hq
      · simpa using h

/-- `d[k] = v` behaves like a rightmost-wins single-entry merge. -/
theorem dictLookup_dictUpdate1 (d : List (String × String))
    (kv : String × String) (k : String) :
    dictLookup (dictUpdate1 d kv) k =
      if kv.1 = k then some kv.2 else dictLookup d k := by
  unfold dictUpdate1
  by_cases hany : d.any (fun q => q.1 == kv.1) = true
  · rw [if_pos hany, dictLookup_overwrite]
    by_cases hk : kv.1 = k
    · obtain ⟨v, hv⟩ := dictLookup_isSome_of_any d k (by rw [← hk]; exact hany)
      rw [if_pos hk, if_pos hk, hv]
      rfl
    · rw [if_neg hk, if_neg hk]
  · rw [if_neg hany, dictLookup_append_single]
    by_cases hk : kv.1 = k
    · rw [if_pos hk, if_pos hk,
        dictLookup_eq_none_of_not_mem d k (by
          intro hmem
          apply hany
          rw [List.any_eq_true]
          obtain ⟨q, hq, hq1⟩ := List.mem_map.mp hmem
          exact ⟨q, hq, by simp [hq1, hk]⟩)]
      rfl
    · rw [if_neg hk, if_neg hk]
      exact Option.or_none

/-- `d.update(new)` behaves like a rightmost-wins merge when `new` has unique
keys (as a Python dict always does). -/
theorem dictLookup_dictUpdate (new : List (String × String))
    (hnew : (new.map Prod.fst).Nodup) (d : List (String × String)) (k : String) :
    dictLookup (dictUpdate d new) k = (dictLookup new k).or (dictLookup d k) := by
  induction new generalizing d with
  | nil => rfl
  | cons kv rest ih =>
    simp only [List.map_cons, List.nodup_cons] at hnew
    have hstep : dictUpdate d (kv :: rest) = dictUpdate (dictUpdate1 d kv) rest := rfl
    rw [hstep, ih hnew.2, dictLookup_dictUpdate1, dictLookup_cons]
    by_cases hk : kv.1 = k
    · rw [if_pos hk, if_pos hk,
        dictLookup_eq_none_of_not_mem rest k (fun hmem => hnew.1 (hk ▸ hmem))]
      rfl
    · rw [if_neg hk, if_neg hk]

/-- C7: when the same key occurs in more than one input map of
`generate_base_string`, the merged dictionary takes its value from the latest
map in the fixed order headers, params, form-data, body, extra-headers. -/
theorem base_string_params_priority
    (hdrs p f b e : List (String × String)) (k : String)
    (hp : (p.map Prod.fst).Nodup) (hf : (f.map Prod.fst).Nodup)
    (hb : (b.map Prod.fst).Nodup) (he : (e.map Prod.fst).Nodup) :
    dictLookup (base_string_params hdrs p f b e) k =
      (dictLookup e k).or ((dictLookup b k).or ((dictLookup f k).or
        ((dictLookup p k).or (dictLookup hdrs k)))) := by
  unfold base_string_params
  rw [dictLookup_dictUpdate e he, dictLookup_dictUpdate b hb,
    dictLookup_dictUpdate f hf, dictLookup_dictUpdate p hp]

/-- Witness for C7: the key `"a"` appears in headers, params and
extra-headers; the merged value is the extra-headers one. -/
theorem base_string_params_priority_witness :
    ((([("a", "2")] : List (String × String)).map Prod.fst).Nodup ∧
      (([] : List (String × String)).map Prod.fst).Nodup ∧
      (([("a", "5")] : List (String × String)).map Prod.fst).Nodup) ∧
    dictLookup (base_string_params [("a", "1")] [("a", "2")] [] []
        [("a", "5")]) "a" =
      (dictLookup [("a", "5")] "a").or ((dictLookup [] "a").or
        ((dictLookup [] "a").or ((dictLookup [("a", "2")] "a").or
          (dictLookup [("a", "1")] "a")))) :=
  ⟨⟨by decide, by decide, by decide⟩,
    base_string_params_priority [("a", "1")] [("a", "2")] [] [] [("a", "5")]
      "a" (by decide) (by decide) (by decide) (by decide)⟩

/-! ## Order independence of the base string (claim C6) -/

/-- Sorting is canonical: permuted inputs sort to the same list. -/
theorem sortPairs_congr (l l' : List (String × String))
    (h : List.Perm l l') : sortPairs l = sortPairs l' :=
  List.eq_of_perm_of_sorted
    (((List.perm_insertionSort pairLe l).trans h).trans
      (List.perm_insertionSort pairLe l').symm)
    (List.sorted_insertionSort pairLe l)
    (List.sorted_insertionSort pairLe l')

theorem dictUpdate1_append (d : List (String × String)) (kv : String × String)
    (h : kv.1 ∉ d.map Prod.fst) : dictUpdate1 d kv = d ++ [kv] := by
  unfold dictUpdate1
  have hc : ¬ (d.any (fun q => q.1 == kv.1) = true) := by
    rw [List.any_eq_true]
    rintro ⟨q, hq, hq1⟩
    exact h (List.mem_map.mpr ⟨q, hq, by simpa using hq1⟩)
  rw [if_neg hc]

theorem dictUpdate_append (d new : List (String × String))
    (h : ((d ++ new).map Prod.fst).Nodup) : dictUpdate d new = d ++ new := by
  induction new generalizing d with
  | nil => simp [dictUpdate]
  | cons kv rest ih =>
    have hk : kv.1 ∉ d.map Prod.fst := by
      intro hmem
      rw [List.map_append] at h
      rcases List.nodup_append.mp h with ⟨_, _, hdisj⟩
      exact hdisj hmem (by simp)
    have hstep : dictUpdate d (kv :: rest) = dictUpdate (dictUpdate1 d kv) rest :=
      rfl
    rw [hstep, dictUpdate1_append d kv hk, ih (d ++ [kv])
      (by simpa [List.append_assoc] using h)]
    simp

/-- With pairwise-distinct keys, the dictionary merge is plain concatenation. -/
theorem base_string_params_append (hdrs p f b e : List (String × String))
    (h : ((hdrs ++ p ++ f ++ b ++ e).map Prod.fst).Nodup) :
    base_string_params hdrs p f b e = hdrs ++ p ++ f ++ b ++ e := by
  have key : ∀ l₁ l₂ : List (String × String),
      ((l₁ ++ l₂).map Prod.fst).Nodup → (l₁.map Prod.fst).Nodup := by
    intro l₁ l₂ hn
    rw [List.map_append] at hn
    exact (List.nodup_append.mp hn).1
  have h4 := key _ e h
  have h3 := key _ b h4
  have h2 := key _ f h3
  unfold base_string_params
  rw [dictUpdate_append hdrs p h2, dictUpdate_append _ f h3,
    dictUpdate_append _ b h4, dictUpdate_append _ e h]

/-- C6: permuting the insertion order of keys within and across the four input
maps (with pairwise-disjoint key sets and no duplicates) yields an identical
base string — the sorted merge makes input order irrelevant. -/
theorem generate_base_string_order_independent
    (m u : String) (pre : Option String)
    (hdrs p f b e hdrs' p' f' b' e' : List (String × String))
    (hn : ((hdrs ++ p ++ f ++ b ++ e).map Prod.fst).Nodup)
    (hn' : ((hdrs' ++ p' ++ f' ++ b' ++ e').map Prod.fst).Nodup)
    (hperm : List.Perm (hdrs ++ p ++ f ++ b ++ e)
      (hdrs' ++ p' ++ f' ++ b' ++ e')) :
    generate_base_string m u hdrs p f b e pre =
      generate_base_string m u hdrs' p' f' b' e' pre := by
  have hsort : sortPairs (base_string_params hdrs p f b e) =
      sortPairs (base_string_params hdrs' p' f' b' e') := by
    rw [base_string_params_append _ _ _ _ _ hn,
      base_string_params_append _ _ _ _ _ hn']
    exact sortPairs_congr _ _ hperm
  unfold generate_base_string oauth_params_string
  rw [hsort]

/-- Witness for C6: moving the pair `("a", "1")` from the params map into the
headers map (and reordering) leaves the base string unchanged. -/
theorem generate_base_string_order_independent_witness :
    generate_base_string "GET" "https://api.ibkr.com" [("b", "2")]
        [("a", "1")] [] [] [] none =
      generate_base_string "GET" "https://api.ibkr.com"
        [("a", "1"), ("b", "2")] [] [] [] [] none :=
  generate_base_string_order_independent "GET" "https://api.ibkr.com" none
    [("b", "2")] [("a", "1")] [] [] [] [("a", "1"), ("b", "2")] [] [] [] []
    (by decide) (by decide) (by decide)

theorem intercalate_three (a b c : String) :
    "&".intercalate [a, b, c] = a ++ "&" ++ b ++ "&" ++ c := by
  simp [String.intercalate, String.intercalate.go]

theorem pyDigits_lt (b x : Nat) (hb : 2 ≤ b) : ∀ d ∈ pyDigits b x, d < b := by
  intro d hd
  rw [pyDigits_eq b x hb] at hd
  split at hd
  · simp at hd
    omega
  · exact Nat.digits_lt_base (by omega) (List.mem_reverse.mp hd)

theorem hexUpperChar_ne_plus (d : Nat) (hd : d < 16) : hexUpperChar d ≠ '+' := by
  interval_cases d <;> decide

theorem percentEscape_ne_plus (b : Nat) : ∀ c ∈ percentEscape b, c ≠ '+' := by
  intro c hc
  unfold percentEscape at hc
  have hdig : ∀ a ∈ (pyDigits 16 b).map hexUpperChar, a ≠ '+' := by
    intro a ha
    obtain ⟨d, hd, hdc⟩ := List.mem_map.mp ha
    subst hdc
    exact hexUpperChar_ne_plus d (pyDigits_lt 16 b (by norm_num) d hd)
  rcases List.mem_cons.mp hc with h | h
  · subst h
    decide
  · split at h
    · rcases List.mem_cons.mp h with h0 | h0
      · subst h0
        decide
      · exact hdig c h0
    · exact hdig c h

theorem quoteChar_ne_plus (safe : List Char) (hsafe : '+' ∉ safe) (c : Char) :
    ∀ a ∈ quoteChar safe c, a ≠ '+' := by
  intro a ha
  unfold quoteChar at ha
  split at ha
  · rename_i hcond
    simp only [List.mem_singleton] at ha
    subst ha
    intro hc
    subst hc
    rw [Bool.or_eq_true] at hcond
    rcases hcond with h | h
    · exact absurd h (by decide)
    · exact hsafe (by simpa using h)
  · obtain ⟨chunk, hchunk, hmem⟩ := List.mem_flatten.mp ha
    obtain ⟨byteN, _, rfl⟩ := List.mem_map.mp hchunk
    exact percentEscape_ne_plus byteN a hmem

/-- The strict encoder (`parse.quote`) never emits a `+` character. -/
theorem quote_no_plus (s : String) : '+' ∉ (quote s).data := by
  intro hmem
  have hmem' : '+' ∈ List.flatten (s.data.map (quoteChar ['/'])) := hmem
  obtain ⟨chunk, hchunk, hc⟩ := List.mem_flatten.mp hmem'
  obtain ⟨c, _, rfl⟩ := List.mem_map.mp hchunk
  exact quoteChar_ne_plus ['/'] (by decide) c '+' hc rfl

/-- C5 (amended): the URL component is Form-Encoded (`quote_plus`: every
reserved character percent-encoded, a literal space becomes `+`), the joined
`key=value` parameter string is Strict-Encoded (`quote`: a literal space
becomes `%20` and never `+`, and every reserved character is percent-encoded
except `/`, which `parse.quote`'s default `safe="/"` leaves literal), and the
three components `METHOD`, encoded URL, encoded params are joined with `&`
(after the optional prepend). -/
theorem base_string_encoding_modes (m u : String)
    (hdrs p f b e : List (String × String)) (pre : Option String) :
    (generate_base_string m u hdrs p f b e pre =
      (pre.getD "") ++
        (m ++ "&" ++ quote_plus u ++ "&" ++
          quote (oauth_params_string hdrs p f b e))) ∧
    quote_plus " " = "+" ∧
    (∀ c ∈ reservedChars, percentEscaped quote_plus c) ∧
    quote " " = "%20" ∧
    (∀ s : String, '+' ∉ (quote s).data) ∧
    (∀ c ∈ reservedChars, c ≠ '/' → percentEscaped quote c) ∧
    quote "/" = "/" := by
  refine ⟨?_, by decide, by decide, by decide, quote_no_plus, by decide, by decide⟩
  rcases pre with _ | ps
  · show "&".intercalate
        [m, quote_plus u, quote (oauth_params_string hdrs p f b e)] =
      "" ++ (m ++ "&" ++ quote_plus u ++ "&" ++
        quote (oauth_params_string hdrs p f b e))
    rw [intercalate_three]
    simp
  · show ps ++ "&".intercalate
        [m, quote_plus u, quote (oauth_params_string hdrs p f b e)] =
      ps ++ (m ++ "&" ++ quote_plus u ++ "&" ++
        quote (oauth_params_string hdrs p f b e))
    rw [intercalate_three]

/-- C5 counterexample: `/` is a reserved character, yet the parameter-string
encoder leaves it literal — visible in a full base string whose parameter
value contains `/` (the `=` is escaped to `%3D` but the `/` survives). -/
theorem base_string_encoding_counterexample :
    '/' ∈ reservedChars ∧
    quote "/" = "/" ∧
    generate_base_string "GET" "u" [("k", "a/b")] [] [] [] [] none =
      "GET&u&k%3Da/b" := by
  refine ⟨by decide, by decide, ?_⟩
  decide

set_option maxRecDepth 100000 in
/-- Known-answer check of the HMAC-SHA1 model: empty key, empty message. -/
theorem hmacSha1_empty_kat :
    bytesHex (hmacSha1 [] (utf8Bytes "")) =
      "fbdb1d1b18aa6c08324b7d64b71fb76370690e1d" := by
  decide

/-- C4: `validate_live_session_token` returns `true` iff the recomputed hex
digest of `HMAC-SHA1(key = b64decode(LST), message = utf-8(consumer_key))`
equals the supplied signature character for character (case-sensitive); every
signature differing from the matching digest — in particular one obtained by
changing a single hex character — is rejected with `false`. -/
theorem validate_lst_iff (lst sig ck : String) (key : List Nat)
    (hkey : b64decode? lst = some key) :
    (validate_live_session_token lst sig ck = some true ↔
      bytesHex (hmacSha1 key (utf8Bytes ck)) = sig) ∧
    (∀ sig' : String, sig' ≠ bytesHex (hmacSha1 key (utf8Bytes ck)) →
      validate_live_session_token lst sig' ck = some false) := by
  have hval : ∀ g : String, validate_live_session_token lst g ck =
      some (bytesHex (hmacSha1 key (utf8Bytes ck)) == g) := by
    intro g
    unfold validate_live_session_token
    rw [hkey]
    rfl
  constructor
  · rw [hval sig]
    constructor
    · intro h
      exact eq_of_beq (Option.some.inj h)
    · intro h
      rw [h]
      simp only [beq_self_eq_true]
  · intro sig' hs
    rw [hval sig']
    have hne : (bytesHex (hmacSha1 key (utf8Bytes ck)) == sig') = false :=
      beq_eq_false_iff_ne.mpr fun h => hs h.symm
    rw [hne]

/-- Witness for C4: the empty token decodes to the empty key; the digest of
the empty consumer key is the known HMAC-SHA1 value, accepted exactly, and a
version with its first hex character changed is rejected. -/
theorem validate_lst_iff_witness :
    b64decode? "" = some [] ∧
    validate_live_session_token ""
      "fbdb1d1b18aa6c08324b7d64b71fb76370690e1d" "" = some true ∧
    validate_live_session_token ""
      "0bdb1d1b18aa6c08324b7d64b71fb76370690e1d" "" = some false :=
  ⟨rfl,
    (validate_lst_iff "" "fbdb1d1b18aa6c08324b7d64b71fb76370690e1d" "" []
      rfl).1.mpr hmacSha1_empty_kat,
    (validate_lst_iff "" "0bdb1d1b18aa6c08324b7d64b71fb76370690e1d" "" []
      rfl).2 _ (by rw [hmacSha1_empty_kat]; decide)⟩

/-- C2 (amended): whenever the base64-decoded secret fails PKCS#1 v1.5 padding
validation under the given key, `calculate_live_session_token_prepend` fails
with an exception — never a silent success — but the exception is the untyped
`AttributeError` raised by calling `.hex()` on the `None` sentinel, not a
typed `DecryptionError` condition. -/
theorem prepend_padding_failure (secret : String) (key : RsaKey)
    (ct : List Nat) (hdec : b64decode? secret = some ct)
    (hpad : pkcs1v15Decrypt key ct = .ok none) :
    calculate_live_session_token_prepend secret key =
        .error .attributeError ∧
      calculate_live_session_token_prepend secret key ≠
        .error .decryptionError := by
  have h1 : calculate_live_session_token_prepend secret key =
      match pkcs1v15Decrypt key ct with
      | .error e => .error e
      | .ok none => .error .attributeError
      | .ok (some decrypted) => .ok (bytesHex decrypted) := by
    unfold calculate_live_session_token_prepend
    rw [hdec]
  rw [h1, hpad]
  exact ⟨rfl, by decide⟩

/-- C2 counterexample: a concrete secret and key where padding validation
fails (the decrypted block is all zero bytes, so it does not start `00 02`)
and the function fails with `AttributeError`, not with a `DecryptionError`. -/
theorem prepend_padding_failure_counterexample :
    b64decode? "AAAAAAAAAAAAAAAA" = some (List.replicate 12 0) ∧
    pkcs1v15Decrypt ⟨2 ^ 88, 1⟩ (List.replicate 12 0) = .ok none ∧
    calculate_live_session_token_prepend "AAAAAAAAAAAAAAAA" ⟨2 ^ 88, 1⟩ =
      .error .attributeError ∧
    calculate_live_session_token_prepend "AAAAAAAAAAAAAAAA" ⟨2 ^ 88, 1⟩ ≠
      .error .decryptionError :=
  ⟨by decide, by decide, by decide, by decide⟩

/-- Witness for the amended C2 at a second concrete input (`0x01` followed by
eleven zero bytes decrypts to zero, failing padding validation). -/
theorem prepend_padding_failure_witness :
    (b64decode? "AQAAAAAAAAAAAAAA" = some (1 :: List.replicate 11 0) ∧
      pkcs1v15Decrypt ⟨2 ^ 88, 1⟩ (1 :: List.replicate 11 0) = .ok none) ∧
    (calculate_live_session_token_prepend "AQAAAAAAAAAAAAAA" ⟨2 ^ 88, 1⟩ =
        .error .attributeError ∧
      calculate_live_session_token_prepend "AQAAAAAAAAAAAAAA" ⟨2 ^ 88, 1⟩ ≠
        .error .decryptionError) :=
  ⟨⟨by decide, by decide⟩,
    prepend_padding_failure "AQAAAAAAAAAAAAAA" ⟨2 ^ 88, 1⟩
      (1 :: List.replicate 11 0) (by decide) (by decide)⟩

end OAuthUtils
